import Mathlib

/-!
Shallow embedding of the in-memory URL registry and click-tracking store
(`URLStorage` in the repository's backend storage module).

Modelling conventions:
* The two JavaScript `Map`s (`urls`, `clicks`) are association lists with
  JS `Map` semantics: `set` replaces in place when the key exists and
  appends otherwise; `get` finds the first (only) entry; `delete` removes
  entries with the key.
* Timestamps are `Int` milliseconds since the epoch.  `createdAt` and
  `expiresAt` are stored as ISO strings in the source, but every use parses
  them back to a `Date` and compares millisecond values, so `Int` is exact.
* `Math.random`-based shortcode generation is modelled by an oracle
  `gen : Nat → String` giving the code produced at each length-6 attempt,
  plus `gen8 : String` for the single length-8 fallback generation.
* `uuidv4()` is modelled by a fresh-counter field `nextId` on the state.
* A thrown error in `createShortURL` is an `Except.error` return paired
  with the unchanged state.
* JavaScript truthiness of the `customShortcode` and of click metadata
  fields (`clickData.referrer || 'Direct'`) is modelled exactly: `none`
  and `some ""` are both falsy.
-/

/-- A stored URL record (`urlData` in `createShortURL`). -/
structure URLData where
  id : Nat
  originalUrl : String
  shortcode : String
  createdAt : Int
  expiresAt : Int
  validityMinutes : Int
  isActive : Bool
deriving Repr, DecidableEq

/-- A stored click record (`clickRecord` in `recordClick`). -/
structure Click where
  id : Nat
  timestamp : Int
  ip : Option String
  userAgent : Option String
  referrer : String
  location : String
deriving Repr, DecidableEq

/-- The metadata argument of `recordClick`; `none` models a missing
(`undefined`/`null`) field. -/
structure ClickData where
  ip : Option String
  userAgent : Option String
  referrer : Option String
  location : Option String
deriving Repr, DecidableEq

/-- JS `Map.get`: value of the first entry with the key. -/
def mapGet : List (String × α) → String → Option α
  | [], _ => none
  | p :: rest, k => if p.1 = k then some p.2 else mapGet rest k

/-- JS `Map.set`: replace in place if the key exists, append otherwise. -/
def mapSet : List (String × α) → String → α → List (String × α)
  | [], k, v => [(k, v)]
  | p :: rest, k, v => if p.1 = k then (k, v) :: rest else p :: mapSet rest k v

/-- JS `Map.has`. -/
def mapHas : List (String × α) → String → Bool
  | [], _ => false
  | p :: rest, k => p.1 = k || mapHas rest k

/-- JS `Map.delete`: remove the entries with the key. -/
def mapDelete (m : List (String × α)) (k : String) : List (String × α) :=
  m.filter (fun p => decide (p.1 ≠ k))

/-- The key list of a map. -/
def keys (m : List (String × α)) : List String :=
  m.map Prod.fst

/-- The whole mutable state of the `URLStorage` singleton:
`this.urls`, `this.clicks`, and the fresh-id counter modelling `uuidv4`. -/
structure State where
  urls : List (String × URLData)
  clicks : List (String × List Click)
  nextId : Nat
deriving Repr, DecidableEq

/-- The state right after the constructor runs. -/
def initState : State := ⟨[], [], 0⟩

/-- The `shortcodeExists` check. -/
def shortcodeExists (st : State) (shortcode : String) : Bool :=
  mapHas st.urls shortcode

/-- JS truthiness of a string-or-null value: `null` and `""` are falsy. -/
def truthy : Option String → Bool
  | none => false
  | some s => decide (s ≠ "")

/-- One character of the `^[a-zA-Z0-9]+$` class. -/
def isAlphanumChar (c : Char) : Bool :=
  (decide ('a' ≤ c) && decide (c ≤ 'z')) ||
  (decide ('A' ≤ c) && decide (c ≤ 'Z')) ||
  (decide ('0' ≤ c) && decide (c ≤ '9'))

/-- Validation `isValidShortcode`: non-empty string, length in [3,20], matching
`^[a-zA-Z0-9]+$`. -/
def isValidShortcode (s : String) : Bool :=
  if s = "" then false
  else if s.length < 3 || s.length > 20 then false
  else decide (0 < s.length) && s.toList.all isAlphanumChar

/-- The `generateUniqueShortcode` do-while loop: the code of attempt `i` is
`gen i`; `fuel` is the number of uniqueness-checked attempts remaining
(100 at the top call); on exhaustion the length-8 fallback `gen8` is
returned without any uniqueness check. -/
def genUniqueFrom (st : State) (gen : Nat → String) (gen8 : String) : Nat → Nat → String
  | _, 0 => gen8
  | i, fuel + 1 =>
    if shortcodeExists st (gen i) then genUniqueFrom st gen gen8 (i + 1) fuel
    else gen i

/-- Top-level `generateUniqueShortcode` with its `maxAttempts = 100`. -/
def generateUniqueShortcode (st : State) (gen : Nat → String) (gen8 : String) : String :=
  genUniqueFrom st gen gen8 0 100

/-- The two errors thrown by `createShortURL`. -/
inductive CreateError where
  | invalidShortcodeFormat
  | shortcodeAlreadyExists
deriving Repr, DecidableEq

/-- The tail of `createShortURL` once the shortcode is chosen: build
`urlData`, insert it, and insert an empty click list. -/
def finishCreate (st : State) (now : Int) (originalUrl : String)
    (validityMinutes : Int) (shortcode : String) : Except CreateError URLData × State :=
  let urlData : URLData :=
    { id := st.nextId
      originalUrl := originalUrl
      shortcode := shortcode
      createdAt := now
      expiresAt := now + validityMinutes * 60 * 1000
      validityMinutes := validityMinutes
      isActive := true }
  (Except.ok urlData,
   { urls := mapSet st.urls shortcode urlData
     clicks := mapSet st.clicks shortcode []
     nextId := st.nextId + 1 })

/-- Create: `createShortURL(originalUrl, validityMinutes, customShortcode)`.
A thrown error is returned together with the unchanged state. -/
def createShortURL (st : State) (now : Int) (gen : Nat → String) (gen8 : String)
    (originalUrl : String) (validityMinutes : Int) (customShortcode : Option String) :
    Except CreateError URLData × State :=
  if truthy customShortcode then
    let c := customShortcode.getD ""
    if ¬ isValidShortcode c then (Except.error CreateError.invalidShortcodeFormat, st)
    else if shortcodeExists st c then (Except.error CreateError.shortcodeAlreadyExists, st)
    else finishCreate st now originalUrl validityMinutes c
  else
    finishCreate st now originalUrl validityMinutes (generateUniqueShortcode st gen gen8)

/-- Resolve `getURLData`: absent if the shortcode is unknown or the record is
expired (`now > expiresAt`); the state is not modified. -/
def getURLData (st : State) (now : Int) (shortcode : String) : Option URLData :=
  match mapGet st.urls shortcode with
  | none => none
  | some urlData => if now > urlData.expiresAt then none else some urlData

/-- Defaulting as in `clickData.referrer || 'Direct'`: a missing or empty
string falls back to the default. -/
def orDefault (o : Option String) (d : String) : String :=
  match o with
  | none => d
  | some s => if s = "" then d else s

/-- Click recording `recordClick(shortcode, clickData)`: append one click record to the
shortcode's list, creating the list if absent; no liveness check. -/
def recordClick (st : State) (now : Int) (shortcode : String) (cd : ClickData) :
    Click × State :=
  let clicks := (mapGet st.clicks shortcode).getD []
  let clickRecord : Click :=
    { id := st.nextId
      timestamp := now
      ip := cd.ip
      userAgent := cd.userAgent
      referrer := orDefault cd.referrer "Direct"
      location := orDefault cd.location "Unknown" }
  (clickRecord,
   { st with clicks := mapSet st.clicks shortcode (clicks ++ [clickRecord])
             nextId := st.nextId + 1 })

/-- One click entry of the statistics output: `ip` is not exposed. -/
structure StatsClick where
  timestamp : Int
  referrer : String
  location : String
  userAgent : Option String
deriving Repr, DecidableEq

/-- The statistics aggregate returned by `getStatistics`. -/
structure Stats where
  shortcode : String
  originalUrl : String
  createdAt : Int
  expiresAt : Int
  totalClicks : Nat
  clicks : List StatsClick
deriving Repr, DecidableEq

/-- The per-click projection inside `getStatistics`. -/
def projectClick (c : Click) : StatsClick :=
  { timestamp := c.timestamp
    referrer := c.referrer
    location := c.location
    userAgent := c.userAgent }

/-- Statistics `getStatistics(shortcode)`: absent only when the registry has no
record; expiry is not re-checked. -/
def getStatistics (st : State) (shortcode : String) : Option Stats :=
  match mapGet st.urls shortcode with
  | none => none
  | some urlData =>
    let clicks := (mapGet st.clicks shortcode).getD []
    some
      { shortcode := shortcode
        originalUrl := urlData.originalUrl
        createdAt := urlData.createdAt
        expiresAt := urlData.expiresAt
        totalClicks := clicks.length
        clicks := clicks.map projectClick }

/-- Listing `getAllURLs`: one `(record, totalClicks)` entry per registry entry,
with no expiry filtering. -/
def getAllURLs (st : State) : List (URLData × Nat) :=
  st.urls.map (fun p => (p.2, ((mapGet st.clicks p.1).getD []).length))

/-- The body of `cleanupExpiredURLs`'s `for` loop over the entries of
`urls`: each expired entry is deleted from both maps and counted. -/
def cleanupLoop (now : Int) : List (String × URLData) → State → State × Nat
  | [], st => (st, 0)
  | p :: rest, st =>
    if now > p.2.expiresAt then
      let st1 : State :=
        { st with urls := mapDelete st.urls p.1
                  clicks := mapDelete st.clicks p.1 }
      let r := cleanupLoop now rest st1
      (r.1, r.2 + 1)
    else cleanupLoop now rest st

/-- Cleanup `cleanupExpiredURLs`: scan all records, delete the expired ones and
their click lists, return the number removed. -/
def cleanupExpiredURLs (st : State) (now : Int) : State × Nat :=
  cleanupLoop now st.urls st

/-- Keys of the expired entries of a URL map at time `now`. -/
def expiredKeys (now : Int) (l : List (String × URLData)) : List String :=
  (l.filter (fun p => decide (now > p.2.expiresAt))).map Prod.fst

/-- Membership test on a key list (Boolean). -/
def memKeys (ks : List String) (k : String) : Bool :=
  ks.any (fun a => decide (a = k))

/-- Apply a sequence of `recordClick` calls (time and metadata per call)
for one shortcode. -/
def applyClicks (st : State) (sc : String) : List (Int × ClickData) → State
  | [] => st
  | e :: rest => applyClicks (recordClick st e.1 sc e.2).2 sc rest

/-- One facade call, with the clock value (and, for create, the random
oracle) it observes. -/
inductive Op where
  | create (now : Int) (gen : Nat → String) (gen8 : String)
      (originalUrl : String) (validityMinutes : Int) (customShortcode : Option String)
  | resolve (now : Int) (shortcode : String)
  | click (now : Int) (shortcode : String) (cd : ClickData)
  | cleanup (now : Int)

/-- The state transition of one facade call (`getURLData` reads only). -/
def step (st : State) : Op → State
  | Op.create now gen gen8 url v c => (createShortURL st now gen gen8 url v c).2
  | Op.resolve _ _ => st
  | Op.click now sc cd => (recordClick st now sc cd).2
  | Op.cleanup now => (cleanupExpiredURLs st now).1

/-- Run a sequence of facade calls. -/
def run (st : State) (ops : List Op) : State :=
  ops.foldl step st

/-- Registry well-formedness: the URL map has no duplicate keys and each
record is stored under its own shortcode. -/
def WFState (st : State) : Prop :=
  (keys st.urls).Nodup ∧ ∀ p ∈ st.urls, p.2.shortcode = p.1

/-! ### Concrete fixtures used by the witness theorems -/

/-- A deterministic generation oracle: every attempt yields `"abc123"`. -/
def gen0 : Nat → String := fun _ => "abc123"

/-- A concrete length-8 fallback code. -/
def gen8c : String := "abcd1234"

/-- The record produced by the first create on a fresh store at time 0
with validity 30 under oracle `gen0`. -/
def rec1 : URLData :=
  { id := 0
    originalUrl := "https://example.com"
    shortcode := "abc123"
    createdAt := 0
    expiresAt := 1800000
    validityMinutes := 30
    isActive := true }

/-- The state after that first create. -/
def stOne : State := ⟨[("abc123", rec1)], [("abc123", [])], 1⟩

/-- An already-expired record under shortcode `"old1"`. -/
def recOld : URLData :=
  { id := 5
    originalUrl := "https://old.example.com"
    shortcode := "old1"
    createdAt := 0
    expiresAt := 100
    validityMinutes := 30
    isActive := true }

/-- A state holding one expired record and one click for it. -/
def stOld : State :=
  ⟨[("old1", recOld)],
   [("old1", [⟨6, 50, some "1.2.3.4", some "ua", "Direct", "Unknown"⟩])], 7⟩

/-- A record that is still live at time 200. -/
def recLive : URLData :=
  { id := 8
    originalUrl := "https://live.example.com"
    shortcode := "live1"
    createdAt := 0
    expiresAt := 1800000
    validityMinutes := 30
    isActive := true }

/-- A state with one expired record, one live record, and an orphan click
list under `"ghost"`, a shortcode with no registry record. -/
def stMix : State :=
  ⟨[("old1", recOld), ("live1", recLive)],
   [("old1", [⟨6, 50, some "1.2.3.4", some "ua", "Direct", "Unknown"⟩]),
    ("ghost", [⟨9, 60, some "5.6.7.8", some "ua3", "Direct", "Unknown"⟩]),
    ("live1", [])], 10⟩

/-! ### Basic association-list lemmas -/

theorem mapGet_mapSet_self (m : List (String × α)) (k : String) (v : α) :
    mapGet (mapSet m k v) k = some v := by
  induction m with
  | nil => simp [mapSet, mapGet]
  | cons p rest ih =>
    by_cases h : p.1 = k
    · simp [mapSet, h, mapGet]
    · simp [mapSet, h, mapGet, ih]

theorem mapGet_mapSet_ne (m : List (String × α)) (k k' : String) (v : α) (h : k' ≠ k) :
    mapGet (mapSet m k v) k' = mapGet m k' := by
  induction m with
  | nil => simp [mapSet, mapGet, Ne.symm h]
  | cons p rest ih =>
    by_cases hp : p.1 = k
    · subst hp
      simp [mapSet, mapGet, Ne.symm h]
    · by_cases hq : p.1 = k'
      · simp [mapSet, hp, mapGet, hq, h]
      · simp [mapSet, hp, mapGet, hq, ih]

theorem mapHas_iff_mem_keys (m : List (String × α)) (k : String) :
    mapHas m k = true ↔ k ∈ keys m := by
  induction m with
  | nil => simp [mapHas, keys]
  | cons p rest ih =>
    by_cases h : p.1 = k
    · simp [mapHas, h, keys]
    · simp [mapHas, h, keys, ih, Ne.symm h]

theorem mapGet_eq_some_mem (m : List (String × α)) (k : String) (v : α)
    (h : mapGet m k = some v) : (k, v) ∈ m := by
  induction m with
  | nil => simp [mapGet] at h
  | cons p rest ih =>
    by_cases hp : p.1 = k
    · simp [mapGet, hp] at h
      have hpv : p = (k, v) := by cases p; simp_all
      rw [← hpv]
      exact List.mem_cons_self p rest
    · simp [mapGet, hp] at h
      exact List.mem_cons_of_mem _ (ih h)

theorem mapHas_eq_isSome_mapGet (m : List (String × α)) (k : String) :
    mapHas m k = (mapGet m k).isSome := by
  induction m with
  | nil => simp [mapHas, mapGet]
  | cons p rest ih =>
    by_cases hp : p.1 = k
    · simp [mapHas, mapGet, hp]
    · simp [mapHas, mapGet, hp, ih]

theorem keys_mapSet (m : List (String × α)) (k : String) (v : α) :
    keys (mapSet m k v) = if mapHas m k then keys m else keys m ++ [k] := by
  induction m with
  | nil => simp [mapSet, mapHas, keys]
  | cons p rest ih =>
    by_cases hp : p.1 = k
    · simp [mapSet, mapHas, hp, keys]
    · by_cases hr : mapHas rest k
      · simp [mapSet, mapHas, hp, hr, keys] at *
        exact ih
      · simp [mapSet, mapHas, hp, hr, keys] at *
        exact ih

theorem mem_mapSet (m : List (String × α)) (k : String) (v : α) (p : String × α)
    (h : p ∈ mapSet m k v) : p ∈ m ∨ p = (k, v) := by
  induction m with
  | nil => simp [mapSet] at h; right; exact h
  | cons q rest ih =>
    by_cases hq : q.1 = k
    · simp [mapSet, hq] at h
      rcases h with h | h
      · right; exact h
      · left; exact List.mem_cons_of_mem _ h
    · simp [mapSet, hq] at h
      rcases h with h | h
      · left; simp [h]
      · rcases ih h with h1 | h1
        · left; exact List.mem_cons_of_mem _ h1
        · right; exact h1

theorem keys_nodup_inj (m : List (String × α)) (hnd : (keys m).Nodup)
    (p q : String × α) (hp : p ∈ m) (hq : q ∈ m) (hk : p.1 = q.1) : p = q := by
  induction m with
  | nil => simp at hp
  | cons r rest ih =>
    rw [keys, List.map_cons, List.nodup_cons] at hnd
    rcases List.mem_cons.mp hp with hp1 | hp1 <;> rcases List.mem_cons.mp hq with hq1 | hq1
    · rw [hp1, hq1]
    · exact absurd (by rw [← hp1, hk]; exact List.mem_map_of_mem Prod.fst hq1) hnd.1
    · exact absurd (by rw [← hq1, ← hk]; exact List.mem_map_of_mem Prod.fst hp1) hnd.1
    · exact ih hnd.2 hp1 hq1

theorem mapDelete_keys_sublist (m : List (String × α)) (k : String) :
    (keys (mapDelete m k)).Sublist (keys m) :=
  List.Sublist.map Prod.fst (List.filter_sublist m)

/-! ### Lemmas about the generation loop -/

theorem genUniqueFrom_all_exist (st : State) (gen : Nat → String) (gen8 : String) :
    ∀ fuel i, (∀ j, j < fuel → shortcodeExists st (gen (i + j)) = true) →
      genUniqueFrom st gen gen8 i fuel = gen8 := by
  intro fuel
  induction fuel with
  | zero => intro i _; rfl
  | succ n ih =>
    intro i h
    have h0 : shortcodeExists st (gen i) = true := by simpa using h 0 n.succ_pos
    rw [genUniqueFrom, if_pos h0]
    apply ih
    intro j hj
    have harith : i + 1 + j = i + (j + 1) := by omega
    rw [harith]
    exact h (j + 1) (by omega)

theorem genUniqueFrom_found (st : State) (gen : Nat → String) (gen8 : String) :
    ∀ fuel i, (∃ j, j < fuel ∧ shortcodeExists st (gen (i + j)) = false) →
      shortcodeExists st (genUniqueFrom st gen gen8 i fuel) = false := by
  intro fuel
  induction fuel with
  | zero =>
    rintro i ⟨j, hj, _⟩
    omega
  | succ n ih =>
    rintro i ⟨j, hj, hja⟩
    by_cases h0 : shortcodeExists st (gen i) = true
    · rw [genUniqueFrom, if_pos h0]
      apply ih
      match j with
      | 0 =>
        rw [Nat.add_zero] at hja
        rw [hja] at h0
        exact absurd h0 (by simp)
      | j + 1 =>
        refine ⟨j, by omega, ?_⟩
        have harith : i + 1 + j = i + (j + 1) := by omega
        rw [harith]
        exact hja
    · have h0f : shortcodeExists st (gen i) = false := by
        simpa using h0
      rw [genUniqueFrom, if_neg (by simp [h0f])]
      exact h0f

/-! ### Claim theorems -/

/-- Claim C1: for every `originalUrl` and integer `validityMinutes` in
[1,525600], `createShortURL(originalUrl, validityMinutes)` followed
immediately by `getURLData` on the returned shortcode (same clock) yields
a record with the same `originalUrl` and with
`expiresAt = createdAt + validityMinutes * 60` seconds (here in
milliseconds: `validityMinutes * 60 * 1000`). -/
theorem claim_C1 (st : State) (now : Int) (gen : Nat → String) (gen8 : String)
    (url : String) (v : Int) (h1 : 1 ≤ v) (h2 : v ≤ 525600)
    (r : URLData) (st2 : State)
    (hc : createShortURL st now gen gen8 url v none = (Except.ok r, st2)) :
    getURLData st2 now r.shortcode = some r ∧
    r.originalUrl = url ∧ r.createdAt = now ∧
    r.expiresAt = r.createdAt + v * 60 * 1000 := by
  rw [createShortURL] at hc
  simp only [truthy, Bool.false_eq_true, if_false, finishCreate, Prod.mk.injEq] at hc
  obtain ⟨hr, hst⟩ := hc
  have hr2 := (Except.ok.injEq _ _).mp hr
  subst hst
  rw [← hr2]
  refine ⟨?_, rfl, rfl, rfl⟩
  rw [getURLData]
  simp only [mapGet_mapSet_self]
  rw [if_neg (by omega)]

/-- Witness for C1 at a concrete call on the fresh store. -/
theorem claim_C1_witness :
    getURLData stOne 0 rec1.shortcode = some rec1 ∧
    rec1.originalUrl = "https://example.com" ∧ rec1.createdAt = 0 ∧
    rec1.expiresAt = rec1.createdAt + 30 * 60 * 1000 :=
  claim_C1 initState 0 gen0 gen8c "https://example.com" 30 (by omega) (by omega)
    rec1 stOne rfl

/-- Claim C2: `getURLData` returns the stored record iff the shortcode is
a key of `urls` and `now ≤ expiresAt`; an expired-but-present record gives
`none` while the record (with its click count) stays enumerable via
`getAllURLs` (no deletion happens: `getURLData` does not touch the state). -/
theorem claim_C2 (st : State) (now : Int) (sc : String) :
    (∀ r : URLData, getURLData st now sc = some r ↔
      (mapGet st.urls sc = some r ∧ now ≤ r.expiresAt)) ∧
    (∀ r : URLData, mapGet st.urls sc = some r → now > r.expiresAt →
      getURLData st now sc = none ∧
      (r, ((mapGet st.clicks sc).getD []).length) ∈ getAllURLs st) := by
  constructor
  · intro r
    cases hm : mapGet st.urls sc with
    | none => simp [getURLData, hm]
    | some u =>
      simp only [getURLData, hm]
      by_cases he : now > u.expiresAt
      · rw [if_pos he]
        constructor
        · intro h
          exact absurd h (by simp)
        · rintro ⟨h, h2⟩
          rw [(Option.some.injEq _ _).mp h] at he
          exfalso
          omega
      · rw [if_neg he]
        constructor
        · intro h
          refine ⟨h, ?_⟩
          rw [← (Option.some.injEq _ _).mp h]
          omega
        · rintro ⟨h, _⟩
          exact h
  · intro r hm he
    constructor
    · simp [getURLData, hm, he]
    · have hmem : (sc, r) ∈ st.urls := mapGet_eq_some_mem _ _ _ hm
      exact List.mem_map_of_mem _ hmem

/-- Witness for C2 at a concrete expired record. -/
theorem claim_C2_witness :
    getURLData stOld 200 "old1" = none ∧
    (recOld, 1) ∈ getAllURLs stOld :=
  (claim_C2 stOld 200 "old1").2 recOld rfl (by decide)

/-- Claim C5: the generation loop checks at most 100 length-6 attempts;
if some checked attempt is free the returned code is not in the registry,
and if all 100 checked attempts collide the single length-8 fallback is
returned without any uniqueness re-check.  Termination is by construction:
`genUniqueFrom` recurses on its fuel. -/
theorem claim_C5 (st : State) (gen : Nat → String) (gen8 : String) :
    ((∀ i, i < 100 → shortcodeExists st (gen i) = true) →
      generateUniqueShortcode st gen gen8 = gen8) ∧
    ((∃ i, i < 100 ∧ shortcodeExists st (gen i) = false) →
      shortcodeExists st (generateUniqueShortcode st gen gen8) = false) := by
  constructor
  · intro h
    apply genUniqueFrom_all_exist
    intro j hj
    simpa using h j hj
  · rintro ⟨i, hi, hfree⟩
    apply genUniqueFrom_found
    exact ⟨i, hi, by simpa using hfree⟩

/-- Witness for C5: on a store containing `"abc123"` the constant oracle
exhausts its attempts and the fallback is returned; on the empty store the
first attempt is free and the returned code is not registered. -/
theorem claim_C5_witness :
    generateUniqueShortcode stOne gen0 gen8c = gen8c ∧
    shortcodeExists initState (generateUniqueShortcode initState gen0 gen8c) = false :=
  ⟨(claim_C5 stOne gen0 gen8c).1 (fun _ _ => rfl),
   (claim_C5 initState gen0 gen8c).2 ⟨0, by omega, rfl⟩⟩

/-- Claim C3 as stated is false: `customShortcode = ""` is non-null and
fails the 3-20-alphanumeric format, yet `createShortURL` raises no error —
the empty string is falsy in `if (customShortcode)`, so a code is
generated instead. -/
theorem claim_C3_counterexample :
    isValidShortcode "" = false ∧
    createShortURL initState 0 gen0 gen8c "https://example.com" 30 (some "") =
      (Except.ok rec1, stOne) := by
  constructor
  · rfl
  · rfl

/-- Claim C3 amended: for a truthy (non-null, NON-EMPTY) `customShortcode`
the invalid-format error is raised iff the format check fails, otherwise
the already-exists error is raised iff the code is a key of `urls`,
otherwise the record is inserted under the custom code; either error
leaves both maps (the whole state) unchanged. -/
theorem claim_C3_amended (st : State) (now : Int) (gen : Nat → String) (gen8 : String)
    (url : String) (v : Int) (c : String) (hc : c ≠ "") :
    ((createShortURL st now gen gen8 url v (some c)).1 =
        Except.error CreateError.invalidShortcodeFormat ↔ isValidShortcode c = false) ∧
    (isValidShortcode c = true →
      ((createShortURL st now gen gen8 url v (some c)).1 =
          Except.error CreateError.shortcodeAlreadyExists ↔ mapHas st.urls c = true)) ∧
    (isValidShortcode c = true → mapHas st.urls c = false →
      ∃ r : URLData, createShortURL st now gen gen8 url v (some c) =
          (Except.ok r,
           { urls := mapSet st.urls c r
             clicks := mapSet st.clicks c []
             nextId := st.nextId + 1 }) ∧
        r.shortcode = c ∧
        mapGet (createShortURL st now gen gen8 url v (some c)).2.urls c = some r) ∧
    (∀ e : CreateError, (createShortURL st now gen gen8 url v (some c)).1 = Except.error e →
      (createShortURL st now gen gen8 url v (some c)).2 = st) := by
  have ht : truthy (some c) = true := by simp [truthy, hc]
  by_cases hv : isValidShortcode c = true
  · by_cases he : shortcodeExists st c = true
    · have hcc : createShortURL st now gen gen8 url v (some c) =
          (Except.error CreateError.shortcodeAlreadyExists, st) := by
        rw [createShortURL, if_pos ht]
        simp [Option.getD, hv, he]
      refine ⟨?_, ?_, ?_, ?_⟩
      · rw [hcc]
        simp [hv]
      · intro _
        rw [hcc]
        simpa [shortcodeExists] using he
      · intro _ hno
        rw [shortcodeExists] at he
        rw [he] at hno
        exact absurd hno (by simp)
      · intro e _
        rw [hcc]
    · have he2 : shortcodeExists st c = false := by simpa using he
      have hcc : createShortURL st now gen gen8 url v (some c) =
          finishCreate st now url v c := by
        rw [createShortURL, if_pos ht]
        simp [Option.getD, hv, he2]
      refine ⟨?_, ?_, ?_, ?_⟩
      · rw [hcc]
        simp [finishCreate, hv]
      · intro _
        rw [hcc]
        simp [finishCreate, shortcodeExists] at he2 ⊢
        simp [he2]
      · intro _ _
        rw [hcc, finishCreate]
        refine ⟨_, rfl, rfl, ?_⟩
        exact mapGet_mapSet_self _ _ _
      · intro e habs
        rw [hcc, finishCreate] at habs
        exact absurd habs (by simp)
  · have hv2 : isValidShortcode c = false := by simpa using hv
    have hcc : createShortURL st now gen gen8 url v (some c) =
        (Except.error CreateError.invalidShortcodeFormat, st) := by
      rw [createShortURL, if_pos ht]
      simp [Option.getD, hv2]
    refine ⟨?_, ?_, ?_, ?_⟩
    · rw [hcc]
      simp [hv2]
    · intro h
      rw [h] at hv2
      exact absurd hv2 (by simp)
    · intro h _
      rw [h] at hv2
      exact absurd hv2 (by simp)
    · intro e _
      rw [hcc]

/-- Witness for the amended C3: `"ab"` is too short and is rejected with
the format error, leaving the state unchanged; a second create with the
live code `"abc123"` is rejected as already existing. -/
theorem claim_C3_amended_witness :
    (createShortURL initState 0 gen0 gen8c "https://example.com" 30 (some "ab")).1 =
      Except.error CreateError.invalidShortcodeFormat ∧
    (createShortURL stOne 0 gen0 gen8c "https://example.com" 30 (some "abc123")).1 =
      Except.error CreateError.shortcodeAlreadyExists :=
  ⟨((claim_C3_amended initState 0 gen0 gen8c "https://example.com" 30 "ab"
      (by decide)).1).mpr (by decide),
   (((claim_C3_amended stOne 0 gen0 gen8c "https://example.com" 30 "abc123"
      (by decide)).2.1) (by decide)).mpr (by decide)⟩

/-- Claim C7 as stated is false: a click whose `referrer` is the empty
string (given, not absent) is stored with referrer `"Direct"`, because
`clickData.referrer || 'Direct'` treats the empty string as falsy. -/
theorem claim_C7_counterexample :
    (recordClick stOld 60 "old1"
        ⟨some "9.9.9.9", some "ua2", some "", some ""⟩).1.referrer = "Direct" ∧
    (recordClick stOld 60 "old1"
        ⟨some "9.9.9.9", some "ua2", some "", some ""⟩).1.location = "Unknown" ∧
    ("Direct" ≠ "" ∧ "Unknown" ≠ "") := by
  refine ⟨rfl, rfl, by decide, by decide⟩

/-- Claim C7 amended: `recordClick` appends exactly one click to the end
of the shortcode's list, creating the list when absent, leaves every other
click list and the whole URL map untouched, and requires no registry
record for the shortcode; the stored referrer is the given one unless it
is absent OR EMPTY (then `"Direct"`), and likewise location defaults to
`"Unknown"` when absent or empty. -/
theorem claim_C7_amended (st : State) (now : Int) (sc : String) (cd : ClickData) :
    mapGet (recordClick st now sc cd).2.clicks sc =
      some (((mapGet st.clicks sc).getD []) ++ [(recordClick st now sc cd).1]) ∧
    (∀ k, k ≠ sc → mapGet (recordClick st now sc cd).2.clicks k = mapGet st.clicks k) ∧
    (recordClick st now sc cd).2.urls = st.urls ∧
    (recordClick st now sc cd).1.referrer =
      (match cd.referrer with
       | none => "Direct"
       | some s => if s = "" then "Direct" else s) ∧
    (recordClick st now sc cd).1.location =
      (match cd.location with
       | none => "Unknown"
       | some s => if s = "" then "Unknown" else s) := by
  refine ⟨?_, ?_, rfl, rfl, rfl⟩
  · rw [recordClick]
    exact mapGet_mapSet_self _ _ _
  · intro k hk
    rw [recordClick]
    exact mapGet_mapSet_ne _ _ _ _ hk

/-- Witness for the amended C7 on a shortcode with no registry record at
all: the list is created implicitly and the defaults are applied. -/
theorem claim_C7_amended_witness :
    mapGet (recordClick initState 5 "ghost" ⟨none, none, none, none⟩).2.clicks "ghost" =
      some [(recordClick initState 5 "ghost" ⟨none, none, none, none⟩).1] ∧
    mapGet (recordClick initState 5 "ghost" ⟨none, none, none, none⟩).2.clicks "other" =
      none ∧
    (recordClick initState 5 "ghost" ⟨none, none, none, none⟩).2.urls = [] ∧
    (recordClick initState 5 "ghost" ⟨none, none, none, none⟩).1.referrer = "Direct" ∧
    (recordClick initState 5 "ghost" ⟨none, none, none, none⟩).1.location = "Unknown" := by
  have h := claim_C7_amended initState 5 "ghost" ⟨none, none, none, none⟩
  exact ⟨h.1, h.2.1 "other" (by decide), h.2.2.1, h.2.2.2.1, h.2.2.2.2⟩

/-! ### Lemmas about the cleanup loop -/

theorem memKeys_eq_true_iff (ks : List String) (k : String) :
    memKeys ks k = true ↔ k ∈ ks := by
  rw [memKeys, List.any_eq_true]
  constructor
  · rintro ⟨a, ha, hd⟩
    rw [← of_decide_eq_true hd]
    exact ha
  · intro hk
    exact ⟨k, hk, by simp⟩

theorem expiredKeys_cons_pos (now : Int) (p : String × URLData)
    (rest : List (String × URLData)) (h : now > p.2.expiresAt) :
    expiredKeys now (p :: rest) = p.1 :: expiredKeys now rest := by
  simp [expiredKeys, h]

theorem expiredKeys_cons_neg (now : Int) (p : String × URLData)
    (rest : List (String × URLData)) (h : ¬ now > p.2.expiresAt) :
    expiredKeys now (p :: rest) = expiredKeys now rest := by
  simp [expiredKeys, h]

theorem cleanupLoop_nextId (now : Int) :
    ∀ (l : List (String × URLData)) (st : State),
      (cleanupLoop now l st).1.nextId = st.nextId := by
  intro l
  induction l with
  | nil => intro st; rfl
  | cons p rest ih =>
    intro st
    by_cases h : now > p.2.expiresAt
    · simp only [cleanupLoop, if_pos h]
      exact ih _
    · simp only [cleanupLoop, if_neg h]
      exact ih _

theorem cleanupLoop_count (now : Int) :
    ∀ (l : List (String × URLData)) (st : State),
      (cleanupLoop now l st).2 =
        (l.filter (fun p => decide (now > p.2.expiresAt))).length := by
  intro l
  induction l with
  | nil => intro st; rfl
  | cons p rest ih =>
    intro st
    by_cases h : now > p.2.expiresAt
    · simp only [cleanupLoop, if_pos h]
      rw [List.filter_cons, if_pos (by simpa using h), List.length_cons, ih]
    · simp only [cleanupLoop, if_neg h]
      rw [List.filter_cons, if_neg (by simpa using h), ih]

theorem cleanupLoop_urls (now : Int) :
    ∀ (l : List (String × URLData)) (st : State),
      (cleanupLoop now l st).1.urls =
        st.urls.filter (fun q => !(memKeys (expiredKeys now l) q.1)) := by
  intro l
  induction l with
  | nil =>
    intro st
    simp [cleanupLoop, expiredKeys, memKeys]
  | cons p rest ih =>
    intro st
    by_cases h : now > p.2.expiresAt
    · simp only [cleanupLoop, if_pos h]
      rw [ih, expiredKeys_cons_pos now p rest h]
      show (st.urls.filter (fun q => decide (q.1 ≠ p.1))).filter
          (fun q => !(memKeys (expiredKeys now rest) q.1)) = _
      rw [List.filter_filter]
      apply List.filter_congr
      intro q _
      cases hq : decide (q.1 = p.1) <;>
        simp_all [memKeys, List.any_cons, eq_comm]
    · simp only [cleanupLoop, if_neg h]
      rw [ih, expiredKeys_cons_neg now p rest h]

theorem cleanupLoop_clicks (now : Int) :
    ∀ (l : List (String × URLData)) (st : State),
      (cleanupLoop now l st).1.clicks =
        st.clicks.filter (fun q => !(memKeys (expiredKeys now l) q.1)) := by
  intro l
  induction l with
  | nil =>
    intro st
    simp [cleanupLoop, expiredKeys, memKeys]
  | cons p rest ih =>
    intro st
    by_cases h : now > p.2.expiresAt
    · simp only [cleanupLoop, if_pos h]
      rw [ih, expiredKeys_cons_pos now p rest h]
      show (st.clicks.filter (fun q => decide (q.1 ≠ p.1))).filter
          (fun q => !(memKeys (expiredKeys now rest) q.1)) = _
      rw [List.filter_filter]
      apply List.filter_congr
      intro q _
      cases hq : decide (q.1 = p.1) <;>
        simp_all [memKeys, List.any_cons, eq_comm]
    · simp only [cleanupLoop, if_neg h]
      rw [ih, expiredKeys_cons_neg now p rest h]

theorem mem_expiredKeys_of_mem (now : Int) (l : List (String × URLData))
    (q : String × URLData) (hq : q ∈ l) (hexp : now > q.2.expiresAt) :
    q.1 ∈ expiredKeys now l := by
  apply List.mem_map_of_mem Prod.fst
  rw [List.mem_filter]
  exact ⟨hq, by simpa using hexp⟩

theorem expiredKeys_subset_keys (now : Int) (l : List (String × URLData))
    (k : String) (hk : k ∈ expiredKeys now l) : k ∈ keys l := by
  rw [expiredKeys] at hk
  rcases List.mem_map.mp hk with ⟨q, hq, hqk⟩
  rw [← hqk]
  exact List.mem_map_of_mem Prod.fst (List.mem_filter.mp hq).1

theorem memKeys_expiredKeys_of_nodup (now : Int) (l : List (String × URLData))
    (hnd : (keys l).Nodup) (q : String × URLData) (hq : q ∈ l) :
    memKeys (expiredKeys now l) q.1 = decide (now > q.2.expiresAt) := by
  by_cases hexp : now > q.2.expiresAt
  · rw [(memKeys_eq_true_iff _ _).mpr (mem_expiredKeys_of_mem now l q hq hexp)]
    simp [hexp]
  · have : ¬ q.1 ∈ expiredKeys now l := by
      intro hmem
      rw [expiredKeys] at hmem
      rcases List.mem_map.mp hmem with ⟨p, hp, hpk⟩
      rcases List.mem_filter.mp hp with ⟨hpl, hpe⟩
      have hpq : p = q := keys_nodup_inj l hnd p q hpl hq hpk
      rw [hpq] at hpe
      simp at hpe
      omega
    have hfalse : memKeys (expiredKeys now l) q.1 = false := by
      cases hmk : memKeys (expiredKeys now l) q.1
      · rfl
      · exact absurd ((memKeys_eq_true_iff _ _).mp hmk) this
    rw [hfalse]
    simp [hexp]

theorem mapGet_filter_not_memKeys (m : List (String × α)) (ek : List String)
    (k : String) (hk : memKeys ek k = false) :
    mapGet (m.filter (fun q => !(memKeys ek q.1))) k = mapGet m k := by
  induction m with
  | nil => rfl
  | cons p rest ih =>
    rw [List.filter_cons]
    by_cases hp : p.1 = k
    · have hcond : (!(memKeys ek p.1)) = true := by rw [hp, hk]; rfl
      rw [if_pos hcond]
      simp only [mapGet]
      rw [if_pos hp, if_pos hp]
    · cases hmk : memKeys ek p.1 with
      | false =>
        rw [if_pos (show (!false) = true from rfl)]
        simp only [mapGet]
        rw [if_neg hp, if_neg hp]
        exact ih
      | true =>
        rw [if_neg (show ¬ (!true) = true from by simp)]
        conv_rhs => rw [mapGet]
        rw [if_neg hp]
        exact ih

theorem eq_of_state_fields (a b : State) (h1 : a.urls = b.urls)
    (h2 : a.clicks = b.clicks) (h3 : a.nextId = b.nextId) : a = b := by
  cases a
  cases b
  simp_all

/-- Claim C4: `cleanupExpiredURLs` keeps exactly the records with
`now ≤ expiresAt`, removes the click lists of the expired shortcodes,
returns the number of expired records, and a second immediate call (same
clock, no interleaving) removes nothing, returning the same state and 0. -/
theorem claim_C4 (st : State) (now : Int) (h : (keys st.urls).Nodup) :
    (cleanupExpiredURLs st now).1.urls =
      st.urls.filter (fun q => decide (now ≤ q.2.expiresAt)) ∧
    (cleanupExpiredURLs st now).1.clicks =
      st.clicks.filter (fun q => !(memKeys (expiredKeys now st.urls) q.1)) ∧
    (cleanupExpiredURLs st now).2 =
      (st.urls.filter (fun p => decide (now > p.2.expiresAt))).length ∧
    cleanupExpiredURLs (cleanupExpiredURLs st now).1 now =
      ((cleanupExpiredURLs st now).1, 0) := by
  have hnoexp : ∀ q ∈ (cleanupExpiredURLs st now).1.urls, ¬ now > q.2.expiresAt := by
    intro q hq
    rw [cleanupExpiredURLs, cleanupLoop_urls] at hq
    rcases List.mem_filter.mp hq with ⟨hql, hqb⟩
    intro hexp
    have : memKeys (expiredKeys now st.urls) q.1 = true :=
      (memKeys_eq_true_iff _ _).mpr (mem_expiredKeys_of_mem now st.urls q hql hexp)
    rw [this] at hqb
    exact absurd hqb (by simp)
  have hek1 : expiredKeys now (cleanupExpiredURLs st now).1.urls = [] := by
    rw [expiredKeys, List.filter_eq_nil_iff.mpr, List.map_nil]
    intro q hq
    simpa using hnoexp q hq
  refine ⟨?_, ?_, ?_, ?_⟩
  · rw [cleanupExpiredURLs, cleanupLoop_urls]
    apply List.filter_congr
    intro q hq
    rw [memKeys_expiredKeys_of_nodup now st.urls h q hq]
    by_cases he : now > q.2.expiresAt
    · have hne : ¬ now ≤ q.2.expiresAt := by omega
      simp [he, hne]
    · have hle : now ≤ q.2.expiresAt := by omega
      simp [he, hle]
  · rw [cleanupExpiredURLs, cleanupLoop_clicks]
  · rw [cleanupExpiredURLs, cleanupLoop_count]
  · have hurls2 : (cleanupExpiredURLs (cleanupExpiredURLs st now).1 now).1.urls =
        (cleanupExpiredURLs st now).1.urls := by
      rw [cleanupExpiredURLs, cleanupLoop_urls, hek1]
      rw [List.filter_congr, List.filter_true]
      intro q _
      rfl
    have hclicks2 : (cleanupExpiredURLs (cleanupExpiredURLs st now).1 now).1.clicks =
        (cleanupExpiredURLs st now).1.clicks := by
      rw [cleanupExpiredURLs, cleanupLoop_clicks, hek1]
      rw [List.filter_congr, List.filter_true]
      intro q _
      rfl
    have hnext2 : (cleanupExpiredURLs (cleanupExpiredURLs st now).1 now).1.nextId =
        (cleanupExpiredURLs st now).1.nextId := by
      rw [cleanupExpiredURLs, cleanupLoop_nextId]
    have hcount2 : (cleanupExpiredURLs (cleanupExpiredURLs st now).1 now).2 = 0 := by
      rw [cleanupExpiredURLs, cleanupLoop_count]
      rw [List.filter_eq_nil_iff.mpr, List.length_nil]
      intro q hq
      simpa using hnoexp q hq
    have heta : cleanupExpiredURLs (cleanupExpiredURLs st now).1 now =
        ((cleanupExpiredURLs (cleanupExpiredURLs st now).1 now).1,
         (cleanupExpiredURLs (cleanupExpiredURLs st now).1 now).2) := rfl
    rw [heta, hcount2, eq_of_state_fields _ _ hurls2 hclicks2 hnext2]

/-- Witness for C4 on a mixed store with one expired and one live record. -/
theorem claim_C4_witness :
    (cleanupExpiredURLs stMix 200).1.urls =
      stMix.urls.filter (fun q => decide ((200 : Int) ≤ q.2.expiresAt)) ∧
    (cleanupExpiredURLs stMix 200).1.clicks =
      stMix.clicks.filter (fun q => !(memKeys (expiredKeys 200 stMix.urls) q.1)) ∧
    (cleanupExpiredURLs stMix 200).2 =
      (stMix.urls.filter (fun p => decide ((200 : Int) > p.2.expiresAt))).length ∧
    cleanupExpiredURLs (cleanupExpiredURLs stMix 200).1 200 =
      ((cleanupExpiredURLs stMix 200).1, 0) :=
  claim_C4 stMix 200 (by decide)

/-- Claim C9: an expired-but-uncleaned record still blocks a custom create
with its shortcode (already-exists error) while `getURLData` already
returns absent; after a cleanup pass the same custom create succeeds and
inserts under that shortcode. -/
theorem claim_C9 (st : State) (now : Int) (gen : Nat → String) (gen8 : String)
    (url : String) (v : Int) (c : String) (r : URLData)
    (hm : mapGet st.urls c = some r) (hexp : now > r.expiresAt)
    (hv : isValidShortcode c = true) :
    (createShortURL st now gen gen8 url v (some c)).1 =
      Except.error CreateError.shortcodeAlreadyExists ∧
    getURLData st now c = none ∧
    ∃ r2 : URLData,
      (createShortURL (cleanupExpiredURLs st now).1 now gen gen8 url v (some c)).1 =
        Except.ok r2 ∧
      r2.shortcode = c ∧
      mapGet (createShortURL (cleanupExpiredURLs st now).1 now gen gen8 url v
          (some c)).2.urls c = some r2 := by
  have hne : c ≠ "" := by
    intro h
    rw [h] at hv
    exact absurd hv (by decide)
  have ht : truthy (some c) = true := by simp [truthy, hne]
  have hhas : mapHas st.urls c = true := by
    rw [mapHas_eq_isSome_mapGet, hm]
    rfl
  refine ⟨?_, ?_, ?_⟩
  · rw [createShortURL, if_pos ht]
    simp [Option.getD, hv, shortcodeExists, hhas]
  · simp [getURLData, hm, hexp]
  · have hcek : c ∈ expiredKeys now st.urls := by
      have := mem_expiredKeys_of_mem now st.urls (c, r)
        (mapGet_eq_some_mem _ _ _ hm) (by simpa using hexp)
      simpa using this
    have hhas2 : mapHas (cleanupExpiredURLs st now).1.urls c = false := by
      cases hh : mapHas (cleanupExpiredURLs st now).1.urls c with
      | false => rfl
      | true =>
        exfalso
        have hmemk := (mapHas_iff_mem_keys _ _).mp hh
        rw [cleanupExpiredURLs, cleanupLoop_urls, keys] at hmemk
        rcases List.mem_map.mp hmemk with ⟨q, hq, hqc⟩
        rcases List.mem_filter.mp hq with ⟨_, hqb⟩
        have hmt : memKeys (expiredKeys now st.urls) c = true :=
          (memKeys_eq_true_iff _ _).mpr hcek
        rw [hqc, hmt] at hqb
        exact absurd hqb (by simp)
    have hex2 : shortcodeExists (cleanupExpiredURLs st now).1 c = false := by
      rw [shortcodeExists]
      exact hhas2
    have hcc : createShortURL (cleanupExpiredURLs st now).1 now gen gen8 url v (some c) =
        finishCreate (cleanupExpiredURLs st now).1 now url v c := by
      rw [createShortURL, if_pos ht]
      simp only [Option.getD]
      rw [if_neg (by simp [hv]), if_neg (by simp [hex2])]
    rw [hcc, finishCreate]
    exact ⟨_, rfl, rfl, mapGet_mapSet_self _ _ _⟩

/-- Witness for C9: the expired `"old1"` record blocks its own shortcode
until cleanup frees it. -/
theorem claim_C9_witness :
    (createShortURL stOld 200 gen0 gen8c "https://example.com" 30 (some "old1")).1 =
      Except.error CreateError.shortcodeAlreadyExists ∧
    getURLData stOld 200 "old1" = none ∧
    ∃ r2 : URLData,
      (createShortURL (cleanupExpiredURLs stOld 200).1 200 gen0 gen8c
          "https://example.com" 30 (some "old1")).1 = Except.ok r2 ∧
      r2.shortcode = "old1" ∧
      mapGet (createShortURL (cleanupExpiredURLs stOld 200).1 200 gen0 gen8c
          "https://example.com" 30 (some "old1")).2.urls "old1" = some r2 :=
  claim_C9 stOld 200 gen0 gen8c "https://example.com" 30 "old1" recOld rfl
    (by decide) (by decide)

/-- Claim C10: cleanup iterates only over the URL map: the click list of a
shortcode with no registry record (orphan clicks) survives every cleanup
pass unchanged, and a non-expired record and its click list are left
unchanged as well. -/
theorem claim_C10 (st : State) (now : Int) (hnd : (keys st.urls).Nodup) :
    (∀ k, mapHas st.urls k = false →
      mapGet (cleanupExpiredURLs st now).1.clicks k = mapGet st.clicks k) ∧
    (∀ k r, mapGet st.urls k = some r → now ≤ r.expiresAt →
      mapGet (cleanupExpiredURLs st now).1.urls k = some r ∧
      mapGet (cleanupExpiredURLs st now).1.clicks k = mapGet st.clicks k) := by
  constructor
  · intro k hk
    rw [cleanupExpiredURLs, cleanupLoop_clicks]
    apply mapGet_filter_not_memKeys
    cases hmk : memKeys (expiredKeys now st.urls) k with
    | false => rfl
    | true =>
      exfalso
      have hkin := (memKeys_eq_true_iff _ _).mp hmk
      have hkk := expiredKeys_subset_keys now st.urls k hkin
      rw [← mapHas_iff_mem_keys] at hkk
      rw [hk] at hkk
      exact absurd hkk (by simp)
  · intro k r hm hlive
    have hqmem : (k, r) ∈ st.urls := mapGet_eq_some_mem _ _ _ hm
    have hmk : memKeys (expiredKeys now st.urls) k = false := by
      have hq := memKeys_expiredKeys_of_nodup now st.urls hnd (k, r) hqmem
      rw [hq]
      simp only [decide_eq_false_iff_not]
      omega
    constructor
    · rw [cleanupExpiredURLs, cleanupLoop_urls, mapGet_filter_not_memKeys _ _ _ hmk]
      exact hm
    · rw [cleanupExpiredURLs, cleanupLoop_clicks]
      exact mapGet_filter_not_memKeys _ _ _ hmk

/-- Witness for C10: after a cleanup of the mixed store at time 200, the
orphan `"ghost"` clicks and the live record's data are untouched. -/
theorem claim_C10_witness :
    mapGet (cleanupExpiredURLs stMix 200).1.clicks "ghost" = mapGet stMix.clicks "ghost" ∧
    mapGet (cleanupExpiredURLs stMix 200).1.urls "live1" = some recLive ∧
    mapGet (cleanupExpiredURLs stMix 200).1.clicks "live1" =
      mapGet stMix.clicks "live1" := by
  have h := claim_C10 stMix 200 (by decide)
  have h2 := h.2 "live1" recLive (by decide) (by decide)
  exact ⟨h.1 "ghost" (by decide), h2.1, h2.2⟩

/-! ### Lemmas about click accumulation -/

theorem recordClick_urls (st : State) (now : Int) (sc : String) (cd : ClickData) :
    (recordClick st now sc cd).2.urls = st.urls := rfl

theorem applyClicks_urls (sc : String) :
    ∀ (evs : List (Int × ClickData)) (st : State),
      (applyClicks st sc evs).urls = st.urls := by
  intro evs
  induction evs with
  | nil => intro st; rfl
  | cons e rest ih =>
    intro st
    rw [applyClicks, ih, recordClick_urls]

theorem applyClicks_count (sc : String) :
    ∀ (evs : List (Int × ClickData)) (st : State),
      ((mapGet (applyClicks st sc evs).clicks sc).getD []).length =
        ((mapGet st.clicks sc).getD []).length + evs.length := by
  intro evs
  induction evs with
  | nil => intro st; rfl
  | cons e rest ih =>
    intro st
    rw [applyClicks, ih]
    have hone : mapGet (recordClick st e.1 sc e.2).2.clicks sc =
        some (((mapGet st.clicks sc).getD []) ++ [(recordClick st e.1 sc e.2).1]) := by
      rw [recordClick]
      exact mapGet_mapSet_self _ _ _
    rw [hone]
    simp only [Option.getD_some, List.length_append, List.length_cons,
      List.length_nil]
    omega

/-- Claim C6: `getStatistics` is absent iff the shortcode has no registry
record (expiry is not re-checked, so an expired-but-uncleaned record still
yields statistics); when present, `totalClicks` is the click list length
and `clicks` is the insertion-ordered projection exposing exactly
timestamp, referrer, location and userAgent (`projectClick` drops `ip`);
and after a create followed by `n` `recordClick` calls for the returned
shortcode, `totalClicks = n`. -/
theorem claim_C6 :
    (∀ (st : State) (sc : String),
      (getStatistics st sc = none ↔ mapGet st.urls sc = none)) ∧
    (∀ (st : State) (sc : String) (r : URLData), mapGet st.urls sc = some r →
      getStatistics st sc = some
        { shortcode := sc
          originalUrl := r.originalUrl
          createdAt := r.createdAt
          expiresAt := r.expiresAt
          totalClicks := ((mapGet st.clicks sc).getD []).length
          clicks := ((mapGet st.clicks sc).getD []).map projectClick }) ∧
    (∀ (st : State) (now : Int) (gen : Nat → String) (gen8 : String)
      (url : String) (v : Int) (r : URLData) (st2 : State)
      (evs : List (Int × ClickData)),
      createShortURL st now gen gen8 url v none = (Except.ok r, st2) →
      (getStatistics (applyClicks st2 r.shortcode evs) r.shortcode).map
          Stats.totalClicks = some evs.length) := by
  refine ⟨?_, ?_, ?_⟩
  · intro st sc
    cases hm : mapGet st.urls sc with
    | none => simp [getStatistics, hm]
    | some u => simp [getStatistics, hm]
  · intro st sc r hm
    simp [getStatistics, hm]
  · intro st now gen gen8 url v r st2 evs hc
    rw [createShortURL] at hc
    simp only [truthy, Bool.false_eq_true, if_false, finishCreate, Prod.mk.injEq] at hc
    obtain ⟨hr, hst⟩ := hc
    have hr2 := (Except.ok.injEq _ _).mp hr
    have hsc : r.shortcode = generateUniqueShortcode st gen gen8 := by
      rw [← hr2]
    have hu : mapGet (applyClicks st2 r.shortcode evs).urls r.shortcode = some r := by
      rw [applyClicks_urls, ← hst, hsc, ← hr2]
      exact mapGet_mapSet_self _ _ _
    have h0 : mapGet st2.clicks r.shortcode = some [] := by
      rw [← hst, hsc]
      exact mapGet_mapSet_self _ _ _
    have hlen := applyClicks_count r.shortcode evs st2
    rw [h0] at hlen
    simp only [Option.getD_some, List.length_nil, Nat.zero_add] at hlen
    simp only [getStatistics, hu]
    rw [hlen]
    rfl

/-- Witness for C6: three recorded clicks after the first create yield
`totalClicks = 3`, and statistics for the expired `"old1"` record are
still returned. -/
theorem claim_C6_witness :
    (getStatistics (applyClicks stOne rec1.shortcode
        [(10, ⟨none, none, none, none⟩), (20, ⟨none, none, none, none⟩),
         (30, ⟨none, none, none, none⟩)]) rec1.shortcode).map Stats.totalClicks =
      some 3 ∧
    getStatistics stOld "old1" = some
      { shortcode := "old1"
        originalUrl := recOld.originalUrl
        createdAt := recOld.createdAt
        expiresAt := recOld.expiresAt
        totalClicks := ((mapGet stOld.clicks "old1").getD []).length
        clicks := ((mapGet stOld.clicks "old1").getD []).map projectClick } :=
  ⟨claim_C6.2.2 initState 0 gen0 gen8c "https://example.com" 30 rec1 stOne
      [(10, ⟨none, none, none, none⟩), (20, ⟨none, none, none, none⟩),
       (30, ⟨none, none, none, none⟩)] rfl,
   claim_C6.2.1 stOld "old1" recOld rfl⟩

/-! ### The shortcode-uniqueness invariant -/

theorem WFState_initState : WFState initState := by
  constructor
  · simp [initState, keys]
  · intro p hp
    simp [initState] at hp

theorem WFState_finishCreate (st : State) (now : Int) (url : String) (v : Int)
    (sc : String) (h : WFState st) : WFState (finishCreate st now url v sc).2 := by
  constructor
  · show (keys (mapSet st.urls sc _)).Nodup
    rw [keys_mapSet]
    cases hh : mapHas st.urls sc with
    | true =>
      simp only [if_true]
      exact h.1
    | false =>
      simp only [Bool.false_eq_true, if_false]
      rw [List.nodup_append]
      refine ⟨h.1, List.nodup_singleton sc, ?_⟩
      intro a ha hb
      rw [List.mem_singleton] at hb
      rw [hb] at ha
      rw [← mapHas_iff_mem_keys] at ha
      rw [hh] at ha
      exact absurd ha (by simp)
  · intro p hp
    rcases mem_mapSet _ _ _ _ hp with hp1 | hp1
    · exact h.2 p hp1
    · rw [hp1]

theorem WFState_create (st : State) (now : Int) (gen : Nat → String) (gen8 : String)
    (url : String) (v : Int) (c : Option String) (h : WFState st) :
    WFState (createShortURL st now gen gen8 url v c).2 := by
  rw [createShortURL]
  by_cases ht : truthy c = true
  · rw [if_pos ht]
    by_cases hv : isValidShortcode (c.getD "") = true
    · rw [if_neg (by simp [hv])]
      by_cases he : shortcodeExists st (c.getD "") = true
      · rw [if_pos he]
        exact h
      · rw [if_neg he]
        exact WFState_finishCreate st now url v _ h
    · rw [if_pos (by simp [hv])]
      exact h
  · rw [if_neg ht]
    exact WFState_finishCreate st now url v _ h

theorem WFState_cleanup (st : State) (now : Int) (h : WFState st) :
    WFState (cleanupExpiredURLs st now).1 := by
  constructor
  · rw [cleanupExpiredURLs, cleanupLoop_urls]
    exact List.Nodup.sublist (List.Sublist.map Prod.fst (List.filter_sublist st.urls)) h.1
  · intro p hp
    rw [cleanupExpiredURLs, cleanupLoop_urls] at hp
    exact h.2 p (List.mem_filter.mp hp).1

theorem WFState_step (st : State) (op : Op) (h : WFState st) : WFState (step st op) := by
  cases op with
  | create now gen gen8 url v c => exact WFState_create st now gen gen8 url v c h
  | resolve now sc => exact h
  | click now sc cd => exact h
  | cleanup now => exact WFState_cleanup st now h

theorem WFState_run : ∀ (ops : List Op) (st : State), WFState st → WFState (run st ops) := by
  intro ops
  induction ops with
  | nil => intro st h; exact h
  | cons op rest ih =>
    intro st h
    exact ih (step st op) (WFState_step st op h)

/-- Claim C8: after any sequence of facade calls starting from the fresh
store (creates with or without custom shortcodes, resolves, click
recordings, cleanups), any two registry entries that are live at some
time `now` and carry the same shortcode are the same entry — no two live
records ever hold the same shortcode. -/
theorem claim_C8 (ops : List Op) (now : Int) (p q : String × URLData)
    (hp : p ∈ (run initState ops).urls) (hq : q ∈ (run initState ops).urls)
    (hlp : now ≤ p.2.expiresAt) (hlq : now ≤ q.2.expiresAt)
    (hsc : p.2.shortcode = q.2.shortcode) : p = q := by
  have hwf := WFState_run ops initState WFState_initState
  have hp1 := hwf.2 p hp
  have hq1 := hwf.2 q hq
  exact keys_nodup_inj _ hwf.1 p q hp hq (by rw [← hp1, ← hq1, hsc])

/-- Witness for C8: a one-create run, instantiated at the single live
entry of the resulting registry. -/
theorem claim_C8_witness : ("abc123", rec1) = ("abc123", rec1) :=
  claim_C8 [Op.create 0 gen0 gen8c "https://example.com" 30 none] 0
    ("abc123", rec1) ("abc123", rec1) (by decide) (by decide) (by decide) (by decide)
    rfl
